import Mathlib

/-!
Verification of the navmesh-construction pipeline of `read_navmesh` in
`src/spawning/post_spawn_modification.rs`: vertex/polygon construction from a
triangle mesh, the one-way polygon flag, and per-vertex polygon adjacency
resolution with obstacle sentinels, together with the recursive world-transform
composition of `get_global_transform`. Rust `f32` coordinates are modelled as
exact rationals; a Rust panic is modelled as `none`.
-/

/-- Planar coordinate of a navmesh vertex. The source projects world-space points
onto the horizontal plane with `coords.xz()`; we model the `f32` components as
exact rationals. -/
abbrev Coord : Type := ℚ × ℚ

/-- Componentwise difference of planar coordinates, modelling
`other_vertex.coords - vertex.coords` in the sort key of `read_navmesh`. -/
def vsub (a b : Coord) : Coord := (a.1 - b.1, a.2 - b.2)

/-- Cross product of two planar vectors, used to compare angles of two vectors
lying in a common open half-plane. -/
def cross2 (a b : Coord) : ℚ := a.1 * b.2 - a.2 * b.1

/-- Angular class of a planar vector under `f32::atan2(y, x)`, whose range is
`(-pi, pi]`: class 0 for `y < 0` (angles in `(-pi, 0)`), class 1 for `y = 0` and
`x >= 0` (angle 0, including the zero vector since `atan2(0, 0) = 0`), class 2
for `y > 0` (angles in `(0, pi)`), and class 3 for `y = 0 `and `x < 0` (angle
`pi`). Classes are strictly increasing in the atan2 value. -/
def atan2Class (v : Coord) : Nat :=
  if v.2 < 0 then 0
  else if v.2 = 0 ∧ 0 ≤ v.1 then 1
  else if 0 < v.2 then 2
  else 3

/-- Total order on planar vectors agreeing with the order of their
`f32::atan2(y, x)` values (the sort key `OrderedFloat(vector.y.atan2(vector.x))`
of the source): first compare angular classes; within class 0 or class 2 the two
vectors lie in a common open half-plane, where the sign of the cross product
decides, and within class 1 or class 3 the angles are equal (so the cross
product is 0 and the comparison holds both ways). -/
def atan2Le (a b : Coord) : Bool :=
  decide (atan2Class a < atan2Class b ∨ (atan2Class a = atan2Class b ∧ 0 ≤ cross2 a b))

/-- Insertion step of a stable insertion sort: `a` is placed before the first
element `b` with `le a b`, so elements equal to `a` that were already in the
list stay in front of it. -/
def insertLe (le : α → α → Bool) (a : α) : List α → List α
  | [] => [a]
  | b :: bs => if le a b then a :: b :: bs else b :: insertLe le a bs

/-- Stable insertion sort, modelling Rust's stable `sort_by_key`: for a total
preorder on keys the stable sorted permutation is unique, so any stable sorting
algorithm is an exact model of the source's sort. -/
def stableSortLe (le : α → α → Bool) : List α → List α
  | [] => []
  | a :: l => insertLe le a (stableSortLe le l)

/-- Vertex record of `polyanya::Vertex` as used by `read_navmesh`: planar
coordinates plus the list of polygon references (`isize` in the source; `-1` is
the obstacle sentinel inserted during adjacency resolution). -/
structure Vertex where
  coords : Coord
  polygons : List Int
  deriving Repr, DecidableEq

/-- Polygon record of `polyanya::Polygon` as used by `read_navmesh`: the vertex
index triple in original winding order plus the one-way flag. -/
structure Polygon where
  vertices : List Nat
  is_one_way : Bool
  deriving Repr, DecidableEq

/-- Edge list of a polygon, modelling `get_edges` in
`post_spawn_modification.rs`: the vertex list chained with its first vertex
again and windowed into consecutive pairs. An empty vertex list does not occur
in the pipeline (every polygon is a triangle). -/
def get_edges (p : Polygon) : List (Nat × Nat) :=
  match p.vertices with
  | [] => []
  | v :: vs => List.zip (v :: vs) (vs ++ [v])

/-- Lookup of the edge of `p` ending at `vertex_index`, modelling
`get_counterclockwise_edge_containing_vertex` of the `PolygonExtension` trait:
for counterclockwise winding the vertex is the second element of the pair. -/
def get_counterclockwise_edge_containing_vertex (p : Polygon) (vertex_index : Nat) :
    Option (Nat × Nat) :=
  (get_edges p).find? (fun e => e.2 == vertex_index)

/-- Lookup of the edge of `p` starting at `vertex_index`, modelling
`get_clockwise_edge_containing_vertex` of the `PolygonExtension` trait. -/
def get_clockwise_edge_containing_vertex (p : Polygon) (vertex_index : Nat) :
    Option (Nat × Nat) :=
  (get_edges p).find? (fun e => e.1 == vertex_index)

/-- Sequential fallible map over a list, modelling a Rust iterator pipeline in
which `none` stands for a panic of the original code. -/
def omapM (f : α → Option β) : List α → Option (List β)
  | [] => some []
  | a :: l => do
    let b ← f a
    let l2 ← omapM f l
    pure (b :: l2)

/-- Grouping of the flat triangle index buffer into consecutive index triples,
modelling `triangle_edge_indices.iter().tuples()` (which drops a trailing
incomplete chunk). -/
def toTriangles : List Nat → List (List Nat)
  | a :: b :: c :: rest => [a, b, c] :: toTriangles rest
  | _ => []

/-- Vertex construction of `read_navmesh` lines 83-102: each vertex keeps its
planar coordinates and the list of indices (in increasing order) of the
triangles that contain its index. -/
def initialVertices (coords : List Coord) (triangles : List (List Nat)) : List Vertex :=
  coords.enum.map (fun p =>
    { coords := p.2
      polygons := triangles.enum.filterMap (fun t =>
        if p.1 ∈ t.2 then some (Int.ofNat t.1) else none) })

/-- Polygon construction of `read_navmesh` lines 103-118: a polygon keeps its
vertex triple and is marked one-way when the concatenation of its vertices'
polygon membership lists has fewer than 3 distinct entries
(`unique().take(3).count() < 3` in the source). An out-of-range vertex index
models the panic of `vertices[*index as usize]`. -/
def mkPolygon (verts : List Vertex) (t : List Nat) : Option Polygon := do
  let memberLists ← omapM (fun i => (verts[i]?).map Vertex.polygons) t
  pure { vertices := t
         is_one_way := decide ((memberLists.flatten.dedup.take 3).length < 3) }

/-- Edge comparison for one consecutive pair of the walk in `read_navmesh` lines
142-161: look up the previous polygon's counterclockwise edge and the next
polygon's clockwise edge at the vertex and report whether they fail to be the
same undirected edge traversed in opposite directions (in which case the source
inserts the `-1` obstacle sentinel). `none` models the panics of
`usize::try_from(..).unwrap()`, indexing, and the edge-lookup `unwrap()`s. -/
def edgeGap (polys : List Polygon) (vertex_index : Nat) (last next : Int) : Option Bool := do
  let lastIdx ← Int.toNat' last
  let last_polygon ← polys[lastIdx]?
  let last_counterclockwise_edge ←
    get_counterclockwise_edge_containing_vertex last_polygon vertex_index
  let nextIdx ← Int.toNat' next
  let next_polygon ← polys[nextIdx]?
  let next_clockwise_edge ← get_clockwise_edge_containing_vertex next_polygon vertex_index
  pure (decide (last_counterclockwise_edge.1 ≠ next_clockwise_edge.2 ∨
      last_counterclockwise_edge.2 ≠ next_clockwise_edge.1))

/-- One iteration of the loop of `read_navmesh` lines 135-163. The accumulator
is kept in reverse order (head = most recently pushed element), so the source's
`polygons_including_obstacles.last().unwrap()` is the head; an empty accumulator
cannot occur but is mapped to `none` for definiteness. -/
def walkStep (polys : List Polygon) (vertex_index : Nat) (acc : List Int) (polygon_index : Int) :
    Option (List Int) :=
  match acc with
  | [] => none
  | last :: _ =>
    if last = -1 then some (polygon_index :: acc)
    else do
      let gap ← edgeGap polys vertex_index last polygon_index
      if gap then pure (polygon_index :: -1 :: acc)
      else pure (polygon_index :: acc)

/-- The obstacle-inserting walk of `read_navmesh` lines 134-166 over an ordered
polygon list: start from the first polygon, fold over the remaining polygons
chained with the first polygon again, then drop the duplicated first element
(`polygons_including_obstacles.remove(0)`). The empty case models the panic of
`vertex.polygons[0]` for a vertex with no incident polygon. -/
def runWalk (polys : List Polygon) (vertex_index : Nat) : List Int → Option (List Int)
  | [] => none
  | p0 :: rest =>
    (List.foldlM (walkStep polys vertex_index) [p0] (rest ++ [p0])).map
      (fun acc => acc.reverse.tail)

/-- Sort-key computation of `read_navmesh` lines 122-132 for one polygon
reference: convert the reference to an index (`-1` cannot occur yet), fetch the
polygon, look up its counterclockwise edge at the vertex, and pair the
reference with the vector from the vertex's coordinates to the coordinates of
`unordered_vertices[counterclockwise_edge.1]` (Rust field `.1` is Lean `.2`).
Note that this looked-up index is the vertex index itself, since the
counterclockwise edge is by definition the edge whose second endpoint is the
vertex; the source's `other_vertex` is therefore the vertex itself and the key
vector is always zero. -/
def sortKeyLookup (verts : List Vertex) (polys : List Polygon) (vertex_index : Nat) (v : Vertex)
    (polygon_index : Int) : Option (Int × Coord) := do
  let idx ← Int.toNat' polygon_index
  let polygon ← polys[idx]?
  let counterclockwise_edge ←
    get_counterclockwise_edge_containing_vertex polygon vertex_index
  let other_vertex ← verts[counterclockwise_edge.2]?
  pure (polygon_index, vsub other_vertex.coords v.coords)

/-- Per-vertex adjacency resolution of `read_navmesh` lines 120-166: sort the
vertex's polygon list by the atan2 of the vector from the vertex's coordinates
to `unordered_vertices[counterclockwise_edge.1].coords`, then run the
obstacle-inserting walk. Note that `counterclockwise_edge.1` (Rust field `.1`,
Lean `.2`) is the vertex index itself, so the looked-up point is the vertex's
own coordinate. The stable insertion sort models Rust's stable `sort_by_key`;
`atan2Le` encodes the total order of `f32` atan2 values on exact rational
vectors. -/
def resolveVertexPolygons (verts : List Vertex) (polys : List Polygon) (vertex_index : Nat)
    (v : Vertex) : Option (List Int) := do
  let keyed ← omapM (sortKeyLookup verts polys vertex_index v) v.polygons
  runWalk polys vertex_index ((stableSortLe (fun a b => atan2Le a.2 b.2) keyed).map Prod.fst)

/-- Adjacency resolution over all vertices, `read_navmesh` lines 119-167: each
vertex's polygon list is replaced by the resolved list; the sort key reads
coordinates from the pristine clone `unordered_vertices`, which is the input
list itself since the loop only replaces `polygons` fields. -/
def resolveVertices (verts : List Vertex) (polys : List Polygon) : Option (List Vertex) :=
  omapM (fun p : Nat × Vertex =>
      (resolveVertexPolygons verts polys p.1 p.2).map
        (fun ps => { p.2 with polygons := ps }))
    verts.enum

/-- The navmesh construction pipeline of `read_navmesh` lines 76-167 on an
already projected vertex buffer: build triangles, vertices and polygons, then
resolve adjacency. The result pairs the resolved vertices with the polygons that
are handed to `polyanya::Mesh::new`. -/
def buildNavmesh (coords : List Coord) (indices : List Nat) :
    Option (List Vertex × List Polygon) := do
  let triangles := toTriangles indices
  let verts := initialVertices coords triangles
  let polys ← omapM (mkPolygon verts) triangles
  let resolved ← resolveVertices verts polys
  pure (resolved, polys)

/-- Projection of the pipeline result onto the per-vertex polygon-reference
lists (the data the adjacency claims are about). -/
def navPolyLists (coords : List Coord) (indices : List Nat) : Option (List (List Int)) :=
  (buildNavmesh coords indices).map (fun out => out.1.map Vertex.polygons)

/-- Projection of the pipeline result onto the per-polygon one-way flags. -/
def navOneWayFlags (coords : List Coord) (indices : List Nat) : Option (List Bool) :=
  (buildNavmesh coords indices).map (fun out => out.2.map Polygon.is_one_way)

/-- Validity check of one polygon reference at a vertex: the reference is a
nonnegative in-range polygon index whose polygon has a counterclockwise edge
ending at the vertex. These are exactly the lookups of the sort key whose
failure aborts `resolveVertexPolygons`. -/
def entryCheck (polys : List Polygon) (vertex_index : Nat) (polygon_index : Int) : Option Int := do
  let idx ← Int.toNat' polygon_index
  let polygon ← polys[idx]?
  let _ ← get_counterclockwise_edge_containing_vertex polygon vertex_index
  pure polygon_index

/-- Sort-free form of `resolveVertexPolygons`: because the source's sort key is
the atan2 of the zero vector for every entry, the stable sort leaves the list
unchanged, so resolution amounts to performing the same lookups and walking the
unsorted list. The equivalence is proved in `resolveVertexPolygons_eq_simple`. -/
def resolveVertexPolygonsSimple (polys : List Polygon) (vertex_index : Nat) (v : Vertex) :
    Option (List Int) := do
  let checked ← omapM (entryCheck polys vertex_index) v.polygons
  runWalk polys vertex_index checked

/-- Sort-free form of `resolveVertices`. -/
def resolveVerticesSimple (verts : List Vertex) (polys : List Polygon) : Option (List Vertex) :=
  omapM (fun p : Nat × Vertex =>
      (resolveVertexPolygonsSimple polys p.1 p.2).map
        (fun ps => { p.2 with polygons := ps }))
    verts.enum

/-- Sort-free form of `buildNavmesh`. -/
def buildNavmeshSimple (coords : List Coord) (indices : List Nat) :
    Option (List Vertex × List Polygon) := do
  let triangles := toTriangles indices
  let verts := initialVertices coords triangles
  let polys ← omapM (mkPolygon verts) triangles
  let resolved ← resolveVerticesSimple verts polys
  pure (resolved, polys)

/-- Validity of one polygon reference at a vertex: a nonnegative in-range
polygon index whose polygon lists the vertex. The resolver's lookups for this
reference succeed exactly under this condition. -/
def ValidEntry (polys : List Polygon) (vertex_index : Nat) (p : Int) : Prop :=
  ∃ pn polygon, Int.toNat' p = some pn ∧ polys[pn]? = some polygon ∧
    vertex_index ∈ polygon.vertices

/-- Relation asserting that two neighboring entries of a polygon-reference list
are not both the obstacle sentinel. -/
def NotBothSentinel (a b : Int) : Prop := ¬(a = -1 ∧ b = -1)

/-- Modelled from the spec (claim C1): the sort key the specification describes,
namely the vector from the vertex's coordinate to the next vertex along the
polygon's counterclockwise edge at the vertex, i.e. the edge's other endpoint
(its first component), whose atan2 is the intended angle. This differs from the
source's `sortKeyLookup` exactly in reading the edge's first component instead
of its second (which is the vertex itself). -/
def specSortKey (verts : List Vertex) (polys : List Polygon) (vertex_index : Nat) (v : Vertex)
    (polygon_index : Int) : Option (Int × Coord) := do
  let idx ← Int.toNat' polygon_index
  let polygon ← polys[idx]?
  let e ← get_counterclockwise_edge_containing_vertex polygon vertex_index
  let other_vertex ← verts[e.1]?
  pure (polygon_index, vsub other_vertex.coords v.coords)

/-- Modelled from the spec (claim C1): the counterclockwise angular ordering of
a vertex's incident polygons, obtained by stably sorting them by the atan2
angle of the spec's sort key. -/
def specAngularSorted (verts : List Vertex) (polys : List Polygon) (vertex_index : Nat)
    (v : Vertex) : Option (List Int) := do
  let keyed ← omapM (specSortKey verts polys vertex_index v) v.polygons
  pure ((stableSortLe (fun a b => atan2Le a.2 b.2) keyed).map Prod.fst)

/-- Directed edge list of one triangle, used to state mesh closedness. -/
def triangleEdges (t : List Nat) : List (Nat × Nat) :=
  match t with
  | [] => []
  | v :: vs => List.zip (v :: vs) (vs ++ [v])

/-- Combinatorial closedness of a triangulated mesh as used by claim C7: every
directed edge of every triangle occurs exactly once among all directed edges of
the mesh, and its reversal also occurs exactly once; that is, every undirected
edge is shared by exactly two triangles traversing it in opposite directions. -/
def IsClosedMesh (triangles : List (List Nat)) : Prop :=
  ∀ e ∈ triangles.flatMap triangleEdges,
    (triangles.flatMap triangleEdges).count e = 1 ∧
    (triangles.flatMap triangleEdges).count (e.2, e.1) = 1

/-- Vector of three rational coordinates modelling a `Vec3` of `f32` components. -/
structure Vec3 where
  x : ℚ
  y : ℚ
  z : ℚ
  deriving Repr, DecidableEq

/-- Componentwise sum of vectors. -/
def vadd3 (a b : Vec3) : Vec3 := ⟨a.x + b.x, a.y + b.y, a.z + b.z⟩

/-- Componentwise product of vectors, modelling glam's `Vec3 * Vec3` (used for
applying a scale). -/
def vmul3 (a b : Vec3) : Vec3 := ⟨a.x * b.x, a.y * b.y, a.z * b.z⟩

/-- Scalar multiple of a vector. -/
def vsmul3 (s : ℚ) (a : Vec3) : Vec3 := ⟨s * a.x, s * a.y, s * a.z⟩

/-- Dot product of vectors. -/
def vdot3 (a b : Vec3) : ℚ := a.x * b.x + a.y * b.y + a.z * b.z

/-- Cross product of vectors. -/
def vcross3 (a b : Vec3) : Vec3 :=
  ⟨a.y * b.z - a.z * b.y, a.z * b.x - a.x * b.z, a.x * b.y - a.y * b.x⟩

/-- Quaternion with rational components modelling glam's `Quat`. -/
structure Quat where
  x : ℚ
  y : ℚ
  z : ℚ
  w : ℚ
  deriving Repr, DecidableEq

/-- Hamilton product of quaternions, as in glam's quaternion multiplication
(used by bevy to compose rotations). -/
def quatMul (a b : Quat) : Quat :=
  ⟨a.w * b.x + a.x * b.w + a.y * b.z - a.z * b.y,
   a.w * b.y - a.x * b.z + a.y * b.w + a.z * b.x,
   a.w * b.z + a.x * b.y - a.y * b.x + a.z * b.w,
   a.w * b.w - a.x * b.x - a.y * b.y - a.z * b.z⟩

/-- Rotation of a vector by a quaternion, following glam's `Quat::mul_vec3`: for
a quaternion with scalar part `w` and vector part `b` the image of `v` is
`v * (w * w - b . b) + b * (2 * (v . b)) + (b x v) * (2 * w)`. -/
def quatMulVec3 (q : Quat) (v : Vec3) : Vec3 :=
  vadd3 (vadd3 (vsmul3 (q.w * q.w - vdot3 ⟨q.x, q.y, q.z⟩ ⟨q.x, q.y, q.z⟩) v)
      (vsmul3 (2 * vdot3 v ⟨q.x, q.y, q.z⟩) ⟨q.x, q.y, q.z⟩))
    (vsmul3 (2 * q.w) (vcross3 ⟨q.x, q.y, q.z⟩ v))

/-- The identity quaternion. -/
def quatId : Quat := ⟨0, 0, 0, 1⟩

/-- Bevy `Transform`: translation, rotation and scale. -/
structure Transform where
  translation : Vec3
  rotation : Quat
  scale : Vec3
  deriving Repr, DecidableEq

/-- Bevy `Transform::IDENTITY`. -/
def identityTransform : Transform := ⟨⟨0, 0, 0⟩, quatId, ⟨1, 1, 1⟩⟩

/-- Bevy `Transform::transform_point`: scale, then rotate, then translate. -/
def transformPoint (t : Transform) (p : Vec3) : Vec3 :=
  vadd3 (quatMulVec3 t.rotation (vmul3 t.scale p)) t.translation

/-- Bevy `Transform::mul_transform`: the composed translation is the image of
the child's translation, and rotation and scale compose componentwise. -/
def mulTransform (a b : Transform) : Transform :=
  ⟨transformPoint a b.translation, quatMul a.rotation b.rotation, vmul3 a.scale b.scale⟩

/-- The recursive world-transform computation of `get_global_transform` (lines
207-220 of `post_spawn_modification.rs`): look up the entity's own transform,
and if a parent exists, compose the parent's recursively computed world
transform with it. Entities are natural numbers, the parent query is a partial
map (an `Err` result of the source is `none`). The recursion is bounded by
explicit fuel because an arbitrary parent map may contain cycles, on which the
source would recurse forever; for an entity whose ancestor chain fits in the
fuel, the fuel is never exhausted. -/
def get_global_transform (parent : Nat → Option Nat) (tf : Nat → Transform) :
    Nat → Nat → Transform
  | 0, e => tf e
  | fuel + 1, e =>
    match parent e with
    | none => tf e
    | some q => mulTransform (get_global_transform parent tf fuel q) (tf e)

/-- Ancestor chain of an entity: `AncChain parent e l` states that `l` lists the
entities from `e` up to its root, i.e. `l = [e, parent e, ..., root]`, the root
having no parent. -/
inductive AncChain (parent : Nat → Option Nat) : Nat → List Nat → Prop where
  | root (e : Nat) : parent e = none → AncChain parent e [e]
  | step (e q : Nat) (l : List Nat) : parent e = some q → AncChain parent q l →
      AncChain parent e (e :: l)

/-- Root-to-leaf composition of a list of local transforms. -/
def composeChain (ts : List Transform) : Transform :=
  ts.foldl mulTransform identityTransform

/-- The navmesh pipeline including the world-space projection of `read_navmesh`
lines 69 and 83-88: compute the world transform of the navmesh entity by the
recursive parent walk, apply it to every mesh vertex position, keep the x and z
components (dropping the vertical y component), and build the navmesh from the
projected planar coordinates. -/
def read_navmesh_core (parent : Nat → Option Nat) (tf : Nat → Transform) (fuel : Nat)
    (entity : Nat) (mesh_vertices : List Vec3) (indices : List Nat) :
    Option (List Vertex × List Polygon) :=
  buildNavmesh
    (mesh_vertices.map (fun p =>
      let q := transformPoint (get_global_transform parent tf fuel entity) p
      (q.x, q.z)))
    indices

/-- Concrete fan fixture used to settle claim C1: planar coordinates of five
vertices, vertex 0 at the origin surrounded by three counterclockwise
triangles. -/
def fanCoords : List Coord := [(0, 0), (1, 0), (0, 1), (-1, 0), (0, -1)]

/-- Flat triangle index buffer of the fan fixture: triangles [0,1,2], [0,4,1]
and [0,2,3], all wound counterclockwise around vertex 0. -/
def fanIndices : List Nat := [0, 1, 2, 0, 4, 1, 0, 2, 3]

/-- Initial vertex records of the fan fixture (the value of `initialVertices`
on it, asserted in the C1 theorem). -/
def fanVerts : List Vertex :=
  [⟨(0, 0), [0, 1, 2]⟩, ⟨(1, 0), [0, 1]⟩, ⟨(0, 1), [0, 2]⟩, ⟨(-1, 0), [2]⟩, ⟨(0, -1), [1]⟩]

/-- Polygon records of the fan fixture (the value the pipeline builds, asserted
in the C1 theorem). -/
def fanPolys : List Polygon :=
  [⟨[0, 1, 2], false⟩, ⟨[0, 4, 1], false⟩, ⟨[0, 2, 3], false⟩]

/-! Basic lemmas about `omapM`. -/

lemma omapM_congr {α β : Type} {f g : α → Option β} :
    ∀ {l : List α}, (∀ x ∈ l, f x = g x) → omapM f l = omapM g l
  | [], _ => rfl
  | a :: l, h => by
    have ha := h a (List.mem_cons_self a l)
    have ht := omapM_congr (f := f) (g := g) (l := l) (fun x hx => h x (List.mem_cons_of_mem a hx))
    simp [omapM, ha, ht]

lemma omapM_eq_some_forall₂ {α β : Type} {f : α → Option β} :
    ∀ {l : List α} {r : List β},
      omapM f l = some r ↔ List.Forall₂ (fun a b => f a = some b) l r := by
  intro l
  induction l with
  | nil =>
    intro r
    constructor
    · intro h
      cases h
      exact List.Forall₂.nil
    · intro h
      cases h
      rfl
  | cons a t ih =>
    intro r
    constructor
    · intro h
      cases hfa : f a with
      | none => simp [omapM, hfa] at h
      | some b =>
        cases hft : omapM f t with
        | none => simp [omapM, hfa, hft] at h
        | some bs =>
          simp [omapM, hfa, hft] at h
          cases h
          exact List.Forall₂.cons hfa (ih.mp hft)
    · intro h
      cases h with
      | cons hfa hrest =>
        simp [omapM, hfa, ih.mpr hrest]

lemma omapM_none_of_mem {α β : Type} {f : α → Option β} :
    ∀ {l : List α} {x : α}, x ∈ l → f x = none → omapM f l = none := by
  intro l
  induction l with
  | nil => intro x hx; cases hx
  | cons a t ih =>
    intro x hx hfx
    rcases List.mem_cons.mp hx with h | h
    · subst h
      simp [omapM, hfx]
    · cases hfa : f a with
      | none => simp [omapM, hfa]
      | some b => simp [omapM, hfa, ih h hfx]

lemma omapM_map_snd {α β γ : Type} {f : α → Option β} (c : γ) :
    ∀ l : List α,
      omapM (fun a => (f a).map (fun b => (b, c))) l =
        (omapM f l).map (fun r => r.map (fun b => (b, c)))
  | [] => rfl
  | a :: l => by
    cases hfa : f a with
    | none => simp [omapM, hfa]
    | some b =>
      cases hfl : omapM f l with
      | none => simp [omapM, hfa, hfl, omapM_map_snd c l]
      | some bs => simp [omapM, hfa, hfl, omapM_map_snd c l]

lemma omapM_eq_self {α : Type} {f : α → Option α} (hid : ∀ x y, f x = some y → y = x) :
    ∀ {l r : List α}, omapM f l = some r → r = l := by
  intro l
  induction l with
  | nil => intro r h; cases h; rfl
  | cons a t ih =>
    intro r h
    cases hfa : f a with
    | none => simp [omapM, hfa] at h
    | some b =>
      cases hft : omapM f t with
      | none => simp [omapM, hfa, hft] at h
      | some bs =>
        simp [omapM, hfa, hft] at h
        cases h
        rw [hid a b hfa, ih hft]

/-! Lemmas about the stable sort with all-equal keys: since the source's sort
key is the atan2 of the zero vector for every entry, the comparator accepts
every ordered pair, and a stable sort leaves the list unchanged. -/

lemma atan2Le_refl (a : Coord) : atan2Le a a = true := by
  rw [atan2Le, decide_eq_true_iff]
  exact Or.inr ⟨rfl, by simp [cross2, mul_comm]⟩

lemma insertLe_all_true {α : Type} {le : α → α → Bool} {a : α} :
    ∀ {l : List α}, (∀ b ∈ l, le a b = true) → insertLe le a l = a :: l
  | [], _ => rfl
  | b :: bs, h => by simp [insertLe, h b (List.mem_cons_self b bs)]

lemma stableSortLe_all_true {α : Type} {le : α → α → Bool} :
    ∀ {l : List α}, (∀ x ∈ l, ∀ y ∈ l, le x y = true) → stableSortLe le l = l
  | [], _ => rfl
  | a :: l, h => by
    have ht : stableSortLe le l = l :=
      stableSortLe_all_true (fun x hx y hy =>
        h x (List.mem_cons_of_mem a hx) y (List.mem_cons_of_mem a hy))
    have ha : ∀ b ∈ l, le a b = true := fun b hb =>
      h a (List.mem_cons_self a l) b (List.mem_cons_of_mem a hb)
    simp [stableSortLe, ht, insertLe_all_true ha]

/-! The bridge between the faithful resolver and its sort-free form. -/

lemma sortKeyLookup_eq_entryCheck {verts : List Vertex} {polys : List Polygon}
    {vertex_index : Nat} {v : Vertex} (hv : verts[vertex_index]? = some v) (p : Int) :
    sortKeyLookup verts polys vertex_index v p =
      (entryCheck polys vertex_index p).map (fun q => (q, vsub v.coords v.coords)) := by
  rw [sortKeyLookup, entryCheck]
  cases Int.toNat' p with
  | none => rfl
  | some idx =>
    cases hpoly : polys[idx]? with
    | none => simp [hpoly]
    | some polygon =>
      cases hccw : get_counterclockwise_edge_containing_vertex polygon vertex_index with
      | none => simp [hpoly, hccw]
      | some e =>
        have he2 : e.2 = vertex_index := by
          simpa using List.find?_some hccw
        simp [hpoly, hccw, he2, hv]

lemma resolveVertexPolygons_eq_simple {verts : List Vertex} {polys : List Polygon}
    {vertex_index : Nat} {v : Vertex} (hv : verts[vertex_index]? = some v) :
    resolveVertexPolygons verts polys vertex_index v =
      resolveVertexPolygonsSimple polys vertex_index v := by
  rw [resolveVertexPolygons, resolveVertexPolygonsSimple]
  rw [omapM_congr (fun p _ => sortKeyLookup_eq_entryCheck hv p)]
  rw [omapM_map_snd (f := entryCheck polys vertex_index) (vsub v.coords v.coords) v.polygons]
  cases hchk : omapM (entryCheck polys vertex_index) v.polygons with
  | none => rfl
  | some checked =>
    have hsort :
        stableSortLe (fun a b => atan2Le a.2 b.2)
            (checked.map (fun b => (b, vsub v.coords v.coords))) =
          checked.map (fun b => (b, vsub v.coords v.coords)) := by
      apply stableSortLe_all_true
      intro x hx y hy
      rcases List.mem_map.mp hx with ⟨b, _, hb⟩
      rcases List.mem_map.mp hy with ⟨b2, _, hb2⟩
      rw [← hb, ← hb2]
      exact atan2Le_refl _
    show runWalk polys vertex_index
        (List.map Prod.fst (stableSortLe (fun a b => atan2Le a.2 b.2)
          (List.map (fun b => (b, vsub v.coords v.coords)) checked))) =
      runWalk polys vertex_index checked
    rw [hsort, List.map_map,
      show (Prod.fst ∘ fun b : Int => (b, vsub v.coords v.coords)) = id from rfl, List.map_id]

lemma resolveVertices_eq_simple (verts : List Vertex) (polys : List Polygon) :
    resolveVertices verts polys = resolveVerticesSimple verts polys := by
  rw [resolveVertices, resolveVerticesSimple]
  apply omapM_congr
  intro x hx
  have hget : verts[x.1]? = some x.2 := by
    rcases List.mem_iff_getElem?.mp hx with ⟨n, hn⟩
    rw [List.getElem?_enum] at hn
    cases hvn : verts[n]? with
    | none => rw [hvn] at hn; cases hn
    | some w =>
      rw [hvn] at hn
      have : (n, w) = x := by simpa using hn
      rw [← this]
      exact hvn
  rw [resolveVertexPolygons_eq_simple hget]

lemma buildNavmesh_eq_simple (coords : List Coord) (indices : List Nat) :
    buildNavmesh coords indices = buildNavmeshSimple coords indices := by
  rw [buildNavmesh, buildNavmeshSimple]
  simp only [resolveVertices_eq_simple]

/-! Edge-lookup lemmas: a polygon has a counterclockwise (resp. clockwise) edge
at a vertex exactly when the vertex index occurs in its vertex list. -/

lemma exists_get_edges_snd {p : Polygon} {x : Nat} :
    (∃ e ∈ get_edges p, e.2 = x) ↔ x ∈ p.vertices := by
  rw [get_edges]
  cases hv : p.vertices with
  | nil => simp
  | cons v vs =>
    constructor
    · rintro ⟨e, he, hx⟩
      have h2 := (List.of_mem_zip he).2
      rw [hx] at h2
      rcases List.mem_append.mp h2 with h | h
      · exact List.mem_cons_of_mem v h
      · simp at h
        simp [h]
    · intro hx
      have hlen : (vs ++ [v]).length ≤ (v :: vs).length := by simp
      have hmem : x ∈ List.map Prod.snd ((v :: vs).zip (vs ++ [v])) := by
        rw [List.map_snd_zip _ _ hlen]
        rcases List.mem_cons.mp hx with h | h
        · simp [h]
        · exact List.mem_append.mpr (Or.inl h)
      rcases List.mem_map.mp hmem with ⟨e, he, hx2⟩
      exact ⟨e, he, hx2⟩

lemma exists_get_edges_fst {p : Polygon} {x : Nat} :
    (∃ e ∈ get_edges p, e.1 = x) ↔ x ∈ p.vertices := by
  rw [get_edges]
  cases hv : p.vertices with
  | nil => simp
  | cons v vs =>
    constructor
    · rintro ⟨e, he, hx⟩
      have h1 := (List.of_mem_zip he).1
      rw [hx] at h1
      exact h1
    · intro hx
      have hlen : (v :: vs).length ≤ (vs ++ [v]).length := by simp
      have hmem : x ∈ List.map Prod.fst ((v :: vs).zip (vs ++ [v])) := by
        rw [List.map_fst_zip _ _ hlen]
        exact hx
      rcases List.mem_map.mp hmem with ⟨e, he, hx2⟩
      exact ⟨e, he, hx2⟩

lemma ccw_edge_isSome_iff {p : Polygon} {x : Nat} :
    (get_counterclockwise_edge_containing_vertex p x).isSome = true ↔ x ∈ p.vertices := by
  rw [get_counterclockwise_edge_containing_vertex, List.find?_isSome]
  simp only [beq_iff_eq]
  exact exists_get_edges_snd

lemma cw_edge_isSome_iff {p : Polygon} {x : Nat} :
    (get_clockwise_edge_containing_vertex p x).isSome = true ↔ x ∈ p.vertices := by
  rw [get_clockwise_edge_containing_vertex, List.find?_isSome]
  simp only [beq_iff_eq]
  exact exists_get_edges_fst

lemma ValidEntry.ne_sentinel {polys : List Polygon} {vertex_index : Nat} {p : Int}
    (h : ValidEntry polys vertex_index p) : p ≠ -1 := by
  rcases h with ⟨pn, _, htn, _⟩
  intro hp
  rw [hp] at htn
  cases htn

lemma entryCheck_of_valid {polys : List Polygon} {vertex_index : Nat} {p : Int}
    (h : ValidEntry polys vertex_index p) : entryCheck polys vertex_index p = some p := by
  rcases h with ⟨pn, polygon, htn, hpoly, hmem⟩
  rcases Option.isSome_iff_exists.mp (ccw_edge_isSome_iff.mpr hmem) with ⟨e, he⟩
  rw [entryCheck, htn]
  simp [hpoly, he]

lemma valid_of_entryCheck {polys : List Polygon} {vertex_index : Nat} {p q : Int}
    (h : entryCheck polys vertex_index p = some q) :
    ValidEntry polys vertex_index p ∧ q = p := by
  cases htn : Int.toNat' p with
  | none => rw [entryCheck, htn] at h; cases h
  | some pn =>
    cases hpoly : polys[pn]? with
    | none => rw [entryCheck, htn] at h; simp [hpoly] at h
    | some polygon =>
      cases hccw : get_counterclockwise_edge_containing_vertex polygon vertex_index with
      | none => rw [entryCheck, htn] at h; simp [hpoly, hccw] at h
      | some e =>
        rw [entryCheck, htn] at h
        simp [hpoly, hccw] at h
        refine ⟨⟨pn, polygon, htn, hpoly, ?_⟩, h.symm⟩
        exact ccw_edge_isSome_iff.mp (by rw [hccw]; rfl)

lemma edgeGap_isSome_of_valid {polys : List Polygon} {vertex_index : Nat} {a b : Int}
    (ha : ValidEntry polys vertex_index a) (hb : ValidEntry polys vertex_index b) :
    ∃ g, edgeGap polys vertex_index a b = some g := by
  rcases ha with ⟨an, apoly, hatn, hapoly, hamem⟩
  rcases hb with ⟨bn, bpoly, hbtn, hbpoly, hbmem⟩
  rcases Option.isSome_iff_exists.mp (ccw_edge_isSome_iff.mpr hamem) with ⟨ea, hea⟩
  rcases Option.isSome_iff_exists.mp (cw_edge_isSome_iff.mpr hbmem) with ⟨eb, heb⟩
  rw [edgeGap, hatn]
  simp [hapoly, hea, hbtn, hbpoly, heb]

/-! Structure of the obstacle-inserting walk. -/

lemma walkStep_eq_some {polys : List Polygon} {vertex_index : Nat} {acc acc2 : List Int}
    {p : Int} (h : walkStep polys vertex_index acc p = some acc2) :
    acc2 = p :: acc ∨ acc2 = p :: -1 :: acc := by
  cases acc with
  | nil =>
    rw [show walkStep polys vertex_index [] p = none from rfl] at h
    cases h
  | cons last t =>
    rw [show walkStep polys vertex_index (last :: t) p =
        (if last = -1 then some (p :: last :: t) else do
          let gap ← edgeGap polys vertex_index last p
          if gap then pure (p :: -1 :: last :: t) else pure (p :: last :: t)) from rfl] at h
    by_cases hlast : last = -1
    · rw [if_pos hlast] at h
      cases h
      exact Or.inl rfl
    · rw [if_neg hlast] at h
      cases hgap : edgeGap polys vertex_index last p with
      | none => rw [hgap] at h; cases h
      | some g =>
        rw [hgap] at h
        cases g with
        | true => simp at h; exact Or.inr h.symm
        | false => simp at h; exact Or.inl h.symm

lemma foldlM_walkStep_filter {polys : List Polygon} {vertex_index : Nat} :
    ∀ {chain acc res : List Int}, (∀ p ∈ chain, p ≠ -1) →
      List.foldlM (walkStep polys vertex_index) acc chain = some res →
      res.filter (fun x => x ≠ -1) = chain.reverse ++ acc.filter (fun x => x ≠ -1) := by
  intro chain
  induction chain with
  | nil =>
    intro acc res _ h
    cases h
    simp
  | cons p rest ih =>
    intro acc res hne h
    have hp : p ≠ -1 := hne p (List.mem_cons_self p rest)
    cases hstep : walkStep polys vertex_index acc p with
    | none => simp [List.foldlM_cons, hstep] at h
    | some acc1 =>
      rw [List.foldlM_cons, hstep] at h
      have hrest := ih (fun q hq => hne q (List.mem_cons_of_mem p hq)) h
      have hacc1 : acc1.filter (fun x => x ≠ -1) = p :: acc.filter (fun x => x ≠ -1) := by
        rcases walkStep_eq_some hstep with h1 | h1 <;> rw [h1] <;> simp [hp]
      rw [hrest, hacc1, List.reverse_cons, List.append_assoc]
      simp

lemma foldlM_walkStep_length {polys : List Polygon} {vertex_index : Nat} :
    ∀ {chain acc res : List Int}, (∀ p ∈ chain, p ≠ -1) →
      List.foldlM (walkStep polys vertex_index) acc chain = some res →
      res.length + acc.count (-1) = acc.length + chain.length + res.count (-1) := by
  intro chain
  induction chain with
  | nil =>
    intro acc res _ h
    cases h
    simp
  | cons p rest ih =>
    intro acc res hne h
    have hp : p ≠ -1 := hne p (List.mem_cons_self p rest)
    cases hstep : walkStep polys vertex_index acc p with
    | none => simp [List.foldlM_cons, hstep] at h
    | some acc1 =>
      rw [List.foldlM_cons, hstep] at h
      have hrest := ih (fun q hq => hne q (List.mem_cons_of_mem p hq)) h
      have hbeq : (p == (-1 : Int)) = false := by
        simp [hp]
      rcases walkStep_eq_some hstep with h1 | h1 <;> subst h1 <;>
        simp [List.count_cons, hbeq] at hrest ⊢ <;> omega

lemma foldlM_walkStep_getLast {polys : List Polygon} {vertex_index : Nat} :
    ∀ {chain acc res : List Int}, acc ≠ [] →
      List.foldlM (walkStep polys vertex_index) acc chain = some res →
      res ≠ [] ∧ res.getLast? = acc.getLast? := by
  intro chain
  induction chain with
  | nil =>
    intro acc res hne h
    cases h
    exact ⟨hne, rfl⟩
  | cons p rest ih =>
    intro acc res hne h
    cases hstep : walkStep polys vertex_index acc p with
    | none => simp [List.foldlM_cons, hstep] at h
    | some acc1 =>
      rw [List.foldlM_cons, hstep] at h
      cases acc with
      | nil => exact absurd rfl hne
      | cons a t =>
        have hlast : acc1.getLast? = (a :: t).getLast? ∧ acc1 ≠ [] := by
          rcases walkStep_eq_some hstep with h1 | h1 <;> subst h1 <;>
            simp [List.getLast?_cons_cons]
        have := ih hlast.2 h
        exact ⟨this.1, this.2.trans hlast.1⟩

lemma foldlM_walkStep_chain {polys : List Polygon} {vertex_index : Nat} :
    ∀ {chain acc res : List Int}, (∀ p ∈ chain, p ≠ -1) →
      (∀ h ∈ acc.head?, h ≠ -1) → List.Chain' NotBothSentinel acc →
      List.foldlM (walkStep polys vertex_index) acc chain = some res →
      List.Chain' NotBothSentinel res ∧ (∀ h ∈ res.head?, h ≠ -1) := by
  intro chain
  induction chain with
  | nil =>
    intro acc res _ hhead hch h
    cases h
    exact ⟨hch, hhead⟩
  | cons p rest ih =>
    intro acc res hne hhead hch h
    have hp : p ≠ -1 := hne p (List.mem_cons_self p rest)
    cases hstep : walkStep polys vertex_index acc p with
    | none => simp [List.foldlM_cons, hstep] at h
    | some acc1 =>
      rw [List.foldlM_cons, hstep] at h
      have hch1 : List.Chain' NotBothSentinel acc1 ∧ (∀ h ∈ acc1.head?, h ≠ -1) := by
        rcases walkStep_eq_some hstep with h1 | h1 <;> subst h1
        · constructor
          · rw [List.chain'_cons']
            refine ⟨fun y hy => ?_, hch⟩
            rintro ⟨_, hy2⟩
            exact hhead y hy hy2
          · intro x hx
            simp at hx
            subst hx
            exact hp
        · constructor
          · rw [List.chain'_cons']
            refine ⟨fun y hy => ?_, ?_⟩
            · rintro ⟨hp2, _⟩
              exact hp hp2
            · rw [List.chain'_cons']
              refine ⟨fun y hy => ?_, hch⟩
              rintro ⟨_, hy2⟩
              exact hhead y hy hy2
          · intro x hx
            simp at hx
            subst hx
            exact hp
      exact ih (fun q hq => hne q (List.mem_cons_of_mem p hq)) hch1.2 hch1.1 h

lemma foldlM_walkStep_some_of_valid {polys : List Polygon} {vertex_index : Nat} :
    ∀ {chain : List Int} {last : Int} {t : List Int},
      (∀ p ∈ chain, ValidEntry polys vertex_index p) → ValidEntry polys vertex_index last →
      ∃ res, List.foldlM (walkStep polys vertex_index) (last :: t) chain = some res := by
  intro chain
  induction chain with
  | nil => exact fun _ _ => ⟨_, rfl⟩
  | cons p rest ih =>
    intro last t hvalid hlast
    have hp : ValidEntry polys vertex_index p := hvalid p (List.mem_cons_self p rest)
    rcases edgeGap_isSome_of_valid hlast hp with ⟨g, hg⟩
    have hstep : ∃ acc1, walkStep polys vertex_index (last :: t) p = some acc1 ∧
        (acc1 = p :: last :: t ∨ acc1 = p :: -1 :: last :: t) := by
      rw [show walkStep polys vertex_index (last :: t) p =
          (if last = -1 then some (p :: last :: t) else do
            let gap ← edgeGap polys vertex_index last p
            if gap then pure (p :: -1 :: last :: t) else pure (p :: last :: t)) from rfl,
        if_neg hlast.ne_sentinel, hg]
      cases g with
      | true => exact ⟨_, rfl, Or.inr rfl⟩
      | false => exact ⟨_, rfl, Or.inl rfl⟩
    rcases hstep with ⟨acc1, hstep, hshape⟩
    have hrest := fun q hq => hvalid q (List.mem_cons_of_mem p hq)
    rcases hshape with h1 | h1 <;> subst h1
    · rcases ih hrest hp with ⟨res, hres⟩
      exact ⟨res, by rw [List.foldlM_cons, hstep]; exact hres⟩
    · rcases ih hrest hp with ⟨res, hres⟩
      exact ⟨res, by rw [List.foldlM_cons, hstep]; exact hres⟩

lemma runWalk_cons_shape {polys : List Polygon} {vertex_index : Nat} {p0 : Int}
    {rest ps : List Int} (hne0 : p0 ≠ -1) (hne : ∀ p ∈ rest, p ≠ -1)
    (h : runWalk polys vertex_index (p0 :: rest) = some ps) :
    ps.filter (fun x => x ≠ -1) = rest ++ [p0] ∧
    ps.length = (p0 :: rest).length + ps.count (-1) ∧
    List.Chain' NotBothSentinel ps ∧
    ps.getLast? ≠ some (-1) := by
  rw [show runWalk polys vertex_index (p0 :: rest) =
      (List.foldlM (walkStep polys vertex_index) [p0] (rest ++ [p0])).map
        (fun acc => acc.reverse.tail) from rfl] at h
  rcases Option.map_eq_some'.mp h with ⟨res, hres, hps⟩
  have hchainne : ∀ p ∈ rest ++ [p0], p ≠ -1 := by
    intro p hp
    rcases List.mem_append.mp hp with h1 | h1
    · exact hne p h1
    · simp at h1
      subst h1
      exact hne0
  have hfil := foldlM_walkStep_filter hchainne hres
  have hlen := foldlM_walkStep_length hchainne hres
  have hlast := foldlM_walkStep_getLast (by simp) hres
  have hhead0 : ∀ x ∈ ([p0] : List Int).head?, x ≠ -1 := by
    intro x hx
    simp at hx
    subst hx
    exact hne0
  have hch := foldlM_walkStep_chain hchainne hhead0 (List.chain'_singleton p0) hres
  have hrevhead : res.reverse.head? = some p0 := by
    rw [List.head?_reverse, hlast.2]
    rfl
  have hrev : res.reverse = p0 :: ps := by
    cases hr : res.reverse with
    | nil => rw [hr] at hrevhead; cases hrevhead
    | cons a t =>
      rw [hr] at hrevhead
      simp at hrevhead
      subst hrevhead
      rw [← hps, hr]
      rfl
  have hfilps : ps.filter (fun x => x ≠ -1) = rest ++ [p0] := by
    have h1 : List.filter (fun x => x ≠ -1) (p0 :: ps) = p0 :: (rest ++ [p0]) := by
      rw [← hrev, List.filter_reverse, hfil]
      simp [hne0]
    simp only [List.filter_cons] at h1
    rw [if_pos (by simp [hne0])] at h1
    exact List.cons_injective.eq_iff.mp h1
  have hlenres : res.length = ps.length + 1 := by
    rw [← List.length_reverse res, hrev]
    rfl
  have hcount : res.count (-1) = ps.count (-1) := by
    rw [← List.count_reverse, hrev, List.count_cons]
    simp [hne0]
  have hcnt0 : List.count (-1) ([p0] : List Int) = 0 := by
    simp [List.count_cons, hne0]
  have hlenps : ps.length = (p0 :: rest).length + ps.count (-1) := by
    rw [hlenres, hcount, hcnt0] at hlen
    simp [List.length_append] at hlen
    simp [List.length_cons]
    omega
  have hchps : List.Chain' NotBothSentinel ps := by
    have hflip : List.Chain' (flip NotBothSentinel) res :=
      hch.1.imp (fun a b hab => fun hc => hab ⟨hc.2, hc.1⟩)
    have : List.Chain' NotBothSentinel res.reverse := List.chain'_reverse.mpr hflip
    rw [hrev] at this
    exact this.tail
  have hlastps : ps.getLast? ≠ some (-1) := by
    cases hpsc : ps with
    | nil => simp
    | cons a t =>
      rw [← hpsc]
      have h1 : ps.getLast? = (p0 :: ps).getLast? := by
        rw [hpsc, List.getLast?_cons_cons]
      rw [h1, ← hrev, List.getLast?_reverse]
      intro hcon
      exact hch.2 (-1) hcon rfl
  exact ⟨hfilps, hlenps, hchps, hlastps⟩

lemma runWalk_isSome_of_valid {polys : List Polygon} {vertex_index : Nat} {p0 : Int}
    {rest : List Int} (hv : ∀ p ∈ p0 :: rest, ValidEntry polys vertex_index p) :
    ∃ ps, runWalk polys vertex_index (p0 :: rest) = some ps := by
  have hchain : ∀ p ∈ rest ++ [p0], ValidEntry polys vertex_index p := by
    intro p hp
    rcases List.mem_append.mp hp with h1 | h1
    · exact hv p (List.mem_cons_of_mem p0 h1)
    · simp at h1
      subst h1
      exact hv _ (List.mem_cons_self _ _)
  rcases foldlM_walkStep_some_of_valid (t := []) hchain
      (hv p0 (List.mem_cons_self p0 rest)) with ⟨res, hres⟩
  refine ⟨res.reverse.tail, ?_⟩
  rw [show runWalk polys vertex_index (p0 :: rest) =
      (List.foldlM (walkStep polys vertex_index) [p0] (rest ++ [p0])).map
        (fun acc => acc.reverse.tail) from rfl, hres]
  rfl

/-! Decomposition of the pipeline into its stages. -/

lemma omapM_mem_some {α β : Type} {f : α → Option β} :
    ∀ {l : List α} {r : List β}, omapM f l = some r → ∀ x ∈ l, ∃ y, f x = some y := by
  intro l
  induction l with
  | nil => intro r _ x hx; cases hx
  | cons a t ih =>
    intro r h x hx
    cases hfa : f a with
    | none => simp [omapM, hfa] at h
    | some b =>
      cases hft : omapM f t with
      | none => simp [omapM, hfa, hft] at h
      | some bs =>
        rcases List.mem_cons.mp hx with h1 | h1
        · exact ⟨b, h1 ▸ hfa⟩
        · exact ih hft x h1

lemma omapM_getElem? {α β : Type} {f : α → Option β} :
    ∀ {l : List α} {r : List β} {i : Nat} {b : β},
      omapM f l = some r → r[i]? = some b → ∃ a, l[i]? = some a ∧ f a = some b := by
  intro l
  induction l with
  | nil =>
    intro r i b h hi
    cases h
    simp at hi
  | cons a t ih =>
    intro r i b h hi
    cases hfa : f a with
    | none => simp [omapM, hfa] at h
    | some b0 =>
      cases hft : omapM f t with
      | none => simp [omapM, hfa, hft] at h
      | some r0 =>
        simp [omapM, hfa, hft] at h
        subst h
        cases i with
        | zero =>
          simp at hi ⊢
          exact hi ▸ hfa
        | succ j =>
          simp at hi ⊢
          exact ih hft hi

lemma buildNavmesh_parts {coords : List Coord} {indices : List Nat}
    {out : List Vertex × List Polygon} (h : buildNavmesh coords indices = some out) :
    omapM (mkPolygon (initialVertices coords (toTriangles indices))) (toTriangles indices) =
        some out.2 ∧
      resolveVerticesSimple (initialVertices coords (toTriangles indices)) out.2 =
        some out.1 := by
  rw [buildNavmesh_eq_simple, buildNavmeshSimple] at h
  cases hp : omapM (mkPolygon (initialVertices coords (toTriangles indices)))
      (toTriangles indices) with
  | none => rw [hp] at h; simp at h
  | some polys =>
    rw [hp] at h
    simp only [Option.bind_eq_bind, Option.some_bind] at h
    cases hr : resolveVerticesSimple (initialVertices coords (toTriangles indices)) polys with
    | none => rw [hr] at h; simp at h
    | some resolved =>
      rw [hr] at h
      simp only [Option.bind_eq_bind, Option.some_bind] at h
      cases h
      exact ⟨rfl, hr⟩

lemma resolveVerticesSimple_get {verts : List Vertex} {polys : List Polygon}
    {resolved : List Vertex} (h : resolveVerticesSimple verts polys = some resolved)
    {i : Nat} {v : Vertex} (hi : resolved[i]? = some v) :
    ∃ ov, verts[i]? = some ov ∧ v.coords = ov.coords ∧
      resolveVertexPolygonsSimple polys i ov = some v.polygons := by
  rw [resolveVerticesSimple] at h
  rcases omapM_getElem? h hi with ⟨x, hx, hfx⟩
  rw [List.getElem?_enum] at hx
  cases hov : verts[i]? with
  | none => rw [hov] at hx; cases hx
  | some ov =>
    rw [hov] at hx
    simp at hx
    refine ⟨ov, rfl, ?_⟩
    rw [← hx] at hfx
    rcases Option.map_eq_some'.mp hfx with ⟨ps, hps, hv⟩
    rw [← hv]
    exact ⟨rfl, hps⟩

lemma resolveVertexPolygonsSimple_parts {polys : List Polygon} {vi : Nat} {v : Vertex}
    {ps : List Int} (h : resolveVertexPolygonsSimple polys vi v = some ps) :
    (∀ p ∈ v.polygons, ValidEntry polys vi p) ∧ runWalk polys vi v.polygons = some ps := by
  rw [resolveVertexPolygonsSimple] at h
  cases hchk : omapM (entryCheck polys vi) v.polygons with
  | none => rw [hchk] at h; simp at h
  | some checked =>
    have hec : checked = v.polygons :=
      omapM_eq_self (fun x y hxy => (valid_of_entryCheck hxy).2) hchk
    subst hec
    rw [hchk] at h
    simp only [Option.bind_eq_bind, Option.some_bind] at h
    refine ⟨fun p hp => ?_, h⟩
    rcases omapM_mem_some hchk p hp with ⟨q, hq⟩
    exact (valid_of_entryCheck hq).1

lemma omapM_some_of_forall {α β : Type} {f : α → Option β} :
    ∀ {l : List α}, (∀ x ∈ l, ∃ y, f x = some y) → ∃ r, omapM f l = some r := by
  intro l
  induction l with
  | nil => exact fun _ => ⟨[], rfl⟩
  | cons a t ih =>
    intro h
    rcases h a (List.mem_cons_self a t) with ⟨b, hb⟩
    rcases ih (fun x hx => h x (List.mem_cons_of_mem a hx)) with ⟨r, hr⟩
    exact ⟨b :: r, by simp [omapM, hb, hr]⟩

lemma initialVertices_getElem? {coords : List Coord} {triangles : List (List Nat)} {i : Nat} :
    (initialVertices coords triangles)[i]? = (coords[i]?).map (fun c =>
      { coords := c
        polygons := triangles.enum.filterMap (fun t =>
          if i ∈ t.2 then some (Int.ofNat t.1) else none) }) := by
  rw [initialVertices, List.getElem?_map, List.getElem?_enum]
  cases coords[i]? <;> rfl

lemma initialVertices_nodup {coords : List Coord} {triangles : List (List Nat)} {i : Nat}
    {ov : Vertex} (h : (initialVertices coords triangles)[i]? = some ov) :
    ov.polygons.Nodup := by
  rw [initialVertices_getElem?] at h
  cases hc : coords[i]? with
  | none => rw [hc] at h; cases h
  | some c =>
    rw [hc] at h
    simp at h
    rw [← h]
    show List.Pairwise (fun a b => a ≠ b)
      (triangles.enum.filterMap (fun t => if i ∈ t.2 then some (Int.ofNat t.1) else none))
    have hpw : List.Pairwise (fun a b : Nat × List Nat => a.1 < b.1) triangles.enum := by
      have h1 : List.Pairwise (fun a b : Nat => a < b) (List.map Prod.fst triangles.enum) := by
        rw [List.enum_eq_zip_range, List.map_fst_zip _ _ (by simp)]
        exact List.pairwise_lt_range _
      exact List.pairwise_map.mp h1
    apply List.pairwise_filterMap.mpr
    apply hpw.imp
    intro a b hab x hx y hy
    by_cases ha : i ∈ a.2
    · rw [if_pos ha] at hx
      by_cases hb : i ∈ b.2
      · rw [if_pos hb] at hy
        simp at hx hy
        subst hx
        subst hy
        intro hcon
        rw [Int.ofNat_inj] at hcon
        omega
      · rw [if_neg hb] at hy
        cases hy
    · rw [if_neg ha] at hx
      cases hx

/-- Claim C4: for every vertex of a successfully baked mesh, the final
polygon-reference list never has two sentinel entries in adjacent positions, not
even cyclically (its last entry is never a sentinel at all), the number of its
non-sentinel entries is the number of polygons originally incident to the
vertex, and its length is that number plus the number of sentinel entries. -/
theorem c4_no_adjacent_sentinels (coords : List Coord) (indices : List Nat)
    (out : List Vertex × List Polygon) (i : Nat) (v : Vertex)
    (hbuild : buildNavmesh coords indices = some out) (hv : out.1[i]? = some v) :
    List.Chain' NotBothSentinel v.polygons ∧
    v.polygons.getLast? ≠ some (-1) ∧
    ¬(v.polygons.getLast? = some (-1) ∧ v.polygons.head? = some (-1)) ∧
    ∃ ov, (initialVertices coords (toTriangles indices))[i]? = some ov ∧
      (v.polygons.filter (fun p => p ≠ -1)).length = ov.polygons.length ∧
      v.polygons.length =
        (v.polygons.filter (fun p => p ≠ -1)).length + v.polygons.count (-1) := by
  rcases buildNavmesh_parts hbuild with ⟨_, hres⟩
  rcases resolveVerticesSimple_get hres hv with ⟨ov, hov, _, hsimple⟩
  rcases resolveVertexPolygonsSimple_parts hsimple with ⟨hvalid, hwalk⟩
  cases hop : ov.polygons with
  | nil =>
    rw [hop] at hwalk
    rw [show runWalk out.2 i ([] : List Int) = none from rfl] at hwalk
    cases hwalk
  | cons p0 rest =>
    rw [hop] at hwalk hvalid
    have hne0 : p0 ≠ -1 := (hvalid p0 (List.mem_cons_self p0 rest)).ne_sentinel
    have hne : ∀ p ∈ rest, p ≠ -1 := fun p hp =>
      (hvalid p (List.mem_cons_of_mem p0 hp)).ne_sentinel
    rcases runWalk_cons_shape hne0 hne hwalk with ⟨hfil, hlen, hch, hlast⟩
    refine ⟨hch, hlast, fun hcon => hlast hcon.1, ov, hov, ?_, ?_⟩
    · rw [hfil, hop]
      simp
    · rw [hfil, hlen]
      simp

/-- Claim C10: adjacency resolution preserves the polygon fan exactly: for every
vertex of a successfully baked mesh, the non-sentinel entries of the final
polygon-reference list are a permutation of the vertex's original incident
polygon list, and that original list is duplicate-free (so every incident
polygon appears exactly once and no other polygon appears). -/
theorem c10_fan_preserved (coords : List Coord) (indices : List Nat)
    (out : List Vertex × List Polygon) (i : Nat) (v : Vertex)
    (hbuild : buildNavmesh coords indices = some out) (hv : out.1[i]? = some v) :
    ∃ ov, (initialVertices coords (toTriangles indices))[i]? = some ov ∧
      (v.polygons.filter (fun p => p ≠ -1)).Perm ov.polygons ∧
      ov.polygons.Nodup := by
  rcases buildNavmesh_parts hbuild with ⟨_, hres⟩
  rcases resolveVerticesSimple_get hres hv with ⟨ov, hov, _, hsimple⟩
  rcases resolveVertexPolygonsSimple_parts hsimple with ⟨hvalid, hwalk⟩
  cases hop : ov.polygons with
  | nil =>
    rw [hop] at hwalk
    rw [show runWalk out.2 i ([] : List Int) = none from rfl] at hwalk
    cases hwalk
  | cons p0 rest =>
    rw [hop] at hwalk hvalid
    have hne0 : p0 ≠ -1 := (hvalid p0 (List.mem_cons_self p0 rest)).ne_sentinel
    have hne : ∀ p ∈ rest, p ≠ -1 := fun p hp =>
      (hvalid p (List.mem_cons_of_mem p0 hp)).ne_sentinel
    rcases runWalk_cons_shape hne0 hne hwalk with ⟨hfil, _, _, _⟩
    refine ⟨ov, hov, ?_, initialVertices_nodup hov⟩
    rw [hfil, hop]
    exact List.perm_append_singleton p0 rest

/-- Claim C6: failure behavior of the adjacency resolver. First part: if any
vertex's incident list contains a reference to an existing polygon that does not
list the vertex's index, resolution of the whole vertex set aborts with `none`
(the model of the panicking bake) instead of producing polygon-reference lists.
Second part: if every vertex has at least one incident polygon and every listed
reference is a valid index whose polygon lists the vertex, then the
counterclockwise and clockwise edge lookups succeed for every listed polygon and
resolution succeeds. -/
theorem c6_fail_fast :
    (∀ (verts : List Vertex) (polys : List Polygon) (i : Nat) (v : Vertex) (p : Int)
        (pn : Nat) (polygon : Polygon),
        verts[i]? = some v → p ∈ v.polygons → Int.toNat' p = some pn →
        polys[pn]? = some polygon → i ∉ polygon.vertices →
        resolveVertices verts polys = none) ∧
    (∀ (verts : List Vertex) (polys : List Polygon),
        (∀ (i : Nat) (hi : i < verts.length), (verts.get ⟨i, hi⟩).polygons ≠ [] ∧
          ∀ p ∈ (verts.get ⟨i, hi⟩).polygons, ValidEntry polys i p) →
        (∀ (i : Nat) (hi : i < verts.length), ∀ p ∈ (verts.get ⟨i, hi⟩).polygons,
          ∃ pn polygon, Int.toNat' p = some pn ∧ polys[pn]? = some polygon ∧
            (get_counterclockwise_edge_containing_vertex polygon i).isSome = true ∧
            (get_clockwise_edge_containing_vertex polygon i).isSome = true) ∧
          (resolveVertices verts polys).isSome = true) := by
  constructor
  · intro verts polys i v p pn polygon hv hp htn hpoly hmem
    rw [resolveVertices_eq_simple, resolveVerticesSimple]
    have hccw : get_counterclockwise_edge_containing_vertex polygon i = none := by
      cases hcc : get_counterclockwise_edge_containing_vertex polygon i with
      | none => rfl
      | some e =>
        exact absurd (ccw_edge_isSome_iff.mp (by rw [hcc]; rfl)) hmem
    have hentry : entryCheck polys i p = none := by
      rw [entryCheck, htn]
      simp [hpoly, hccw]
    have hchk : omapM (entryCheck polys i) v.polygons = none :=
      omapM_none_of_mem hp hentry
    have hsimple : resolveVertexPolygonsSimple polys i v = none := by
      rw [resolveVertexPolygonsSimple, hchk]
      rfl
    apply omapM_none_of_mem (x := (i, v))
    · exact List.mem_iff_getElem?.mpr ⟨i, by rw [List.getElem?_enum, hv]; rfl⟩
    · rw [hsimple]
      rfl
  · intro verts polys hgood
    constructor
    · intro i hi p hp
      rcases (hgood i hi).2 p hp with ⟨pn, polygon, htn, hpoly, hmem⟩
      exact ⟨pn, polygon, htn, hpoly, ccw_edge_isSome_iff.mpr hmem,
        cw_edge_isSome_iff.mpr hmem⟩
    · rw [resolveVertices_eq_simple, resolveVerticesSimple]
      apply Option.isSome_iff_exists.mpr
      apply omapM_some_of_forall
      intro x hx
      rcases List.mem_iff_getElem?.mp hx with ⟨n, hn⟩
      rw [List.getElem?_enum] at hn
      cases hvn : verts[n]? with
      | none => rw [hvn] at hn; cases hn
      | some w =>
        rw [hvn] at hn
        simp at hn
        have hlt : n < verts.length := (List.getElem?_eq_some_iff.mp hvn).1
        have hw : verts.get ⟨n, hlt⟩ = w := by
          have := List.getElem?_eq_some_iff.mp hvn
          rcases this with ⟨h1, h2⟩
          exact h2
        rcases hgood n hlt with ⟨hne, hvalid⟩
        rw [hw] at hne hvalid
        have hxeq : x = (n, w) := hn.symm
        subst hxeq
        have hsome : ∃ ps, resolveVertexPolygonsSimple polys n w = some ps := by
          rcases omapM_some_of_forall
              (f := entryCheck polys n) (l := w.polygons)
              (fun p hp => ⟨p, entryCheck_of_valid (hvalid p hp)⟩) with ⟨checked, hchk⟩
          have hec : checked = w.polygons :=
            omapM_eq_self (fun x y hxy => (valid_of_entryCheck hxy).2) hchk
          subst hec
          cases hop : w.polygons with
          | nil => exact absurd hop hne
          | cons p0 rest =>
            have hv2 : ∀ p ∈ p0 :: rest, ValidEntry polys n p :=
              fun p hp => hvalid p (by rw [hop]; exact hp)
            rcases runWalk_isSome_of_valid hv2 with ⟨ps, hps⟩
            refine ⟨ps, ?_⟩
            rw [resolveVertexPolygonsSimple, hchk]
            simp only [Option.bind_eq_bind, Option.some_bind]
            rw [hop]
            exact hps
        rcases hsome with ⟨ps, hps⟩
        exact ⟨{ w with polygons := ps }, by rw [hps]; rfl⟩

/-! Lemmas for the world-transform composition (claim C8). -/

lemma vmul3_one (v : Vec3) : vmul3 ⟨1, 1, 1⟩ v = v := by
  cases v
  simp [vmul3]

lemma vadd3_zero (v : Vec3) : vadd3 v ⟨0, 0, 0⟩ = v := by
  cases v
  simp [vadd3]

lemma quatMulVec3_id (v : Vec3) : quatMulVec3 quatId v = v := by
  cases v
  simp only [quatMulVec3, quatId, vadd3, vsmul3, vdot3, vcross3, Vec3.mk.injEq]
  refine ⟨by ring, by ring, by ring⟩

lemma quatMul_id_left (q : Quat) : quatMul quatId q = q := by
  cases q
  simp only [quatMul, quatId, Quat.mk.injEq]
  refine ⟨by ring, by ring, by ring, by ring⟩

lemma mulTransform_id_left (t : Transform) : mulTransform identityTransform t = t := by
  cases t
  simp only [mulTransform, identityTransform, transformPoint, Transform.mk.injEq]
  refine ⟨?_, quatMul_id_left _, vmul3_one _⟩
  rw [vmul3_one, quatMulVec3_id, vadd3_zero]

lemma AncChain.ne_nil {parent : Nat → Option Nat} {e : Nat} {l : List Nat}
    (h : AncChain parent e l) : l ≠ [] := by
  cases h <;> simp

lemma get_global_transform_eq_composeChain {parent : Nat → Option Nat} {tf : Nat → Transform} :
    ∀ {e : Nat} {l : List Nat}, AncChain parent e l → ∀ {fuel : Nat}, l.length ≤ fuel + 1 →
      get_global_transform parent tf fuel e = composeChain (l.reverse.map tf) := by
  intro e l h
  induction h with
  | root e hp =>
    intro fuel _
    have hc : composeChain ([e].reverse.map tf) = tf e := by
      simp [composeChain, mulTransform_id_left]
    rw [hc]
    cases fuel with
    | zero => rfl
    | succ f =>
      rw [show get_global_transform parent tf (f + 1) e =
          (match parent e with
           | none => tf e
           | some q => mulTransform (get_global_transform parent tf f q) (tf e)) from rfl, hp]
  | step e q l hp hch ih =>
    intro fuel hlen
    have hlne : l ≠ [] := hch.ne_nil
    cases fuel with
    | zero =>
      exfalso
      have h1 : 1 ≤ l.length := by
        cases hl : l with
        | nil => exact absurd hl hlne
        | cons a t => simp
      have h2 : l.length + 1 ≤ 1 := by simpa using hlen
      omega
    | succ f =>
      have hlen2 : l.length ≤ f + 1 := by
        have : l.length + 1 ≤ f + 2 := by simpa using hlen
        omega
      have hred : get_global_transform parent tf (f + 1) e =
          mulTransform (get_global_transform parent tf f q) (tf e) := by
        rw [show get_global_transform parent tf (f + 1) e =
            (match parent e with
             | none => tf e
             | some q2 => mulTransform (get_global_transform parent tf f q2) (tf e)) from rfl,
          hp]
      rw [hred, ih hlen2]
      rw [show (e :: l).reverse = l.reverse ++ [e] from by simp]
      rw [List.map_append, composeChain, composeChain, List.foldl_append]
      rfl

/-- Claim C8: the world transform used for vertex projection, computed by the
recursive parent walk of `get_global_transform`, equals the root-to-leaf
composition of the local transforms along the entity's ancestor chain, and the
planar coordinate handed to the navmesh builder for each mesh vertex is the
pair of x and z components of its image under that composed transform, the
vertical y component being discarded. -/
theorem c8_world_transform (parent : Nat → Option Nat) (tf : Nat → Transform)
    (entity : Nat) (l : List Nat) (fuel : Nat) (mesh_vertices : List Vec3)
    (indices : List Nat) (hchain : AncChain parent entity l)
    (hfuel : l.length ≤ fuel + 1) :
    get_global_transform parent tf fuel entity = composeChain (l.reverse.map tf) ∧
    read_navmesh_core parent tf fuel entity mesh_vertices indices =
      buildNavmesh
        (mesh_vertices.map (fun p =>
          let q := transformPoint (composeChain (l.reverse.map tf)) p
          (q.x, q.z)))
        indices := by
  have h := @get_global_transform_eq_composeChain parent tf entity l hchain fuel hfuel
  exact ⟨h, by rw [read_navmesh_core, h]⟩

/-- Witness for claim C8 at a two-level hierarchy: entity 1 has parent 0, which
is a root; the chain is [1, 0] and the recursive world transform equals the
root-to-leaf composition. -/
theorem c8_world_transform_witness :
    AncChain (fun e => if e = 1 then some 0 else none) 1 [1, 0] ∧
    get_global_transform (fun e => if e = 1 then some 0 else none)
        (fun e => if e = 0 then ⟨⟨1, 2, 3⟩, quatId, ⟨1, 1, 1⟩⟩
          else ⟨⟨4, 5, 6⟩, quatId, ⟨2, 2, 2⟩⟩) 2 1 =
      composeChain (([1, 0] : List Nat).reverse.map
        (fun e => if e = 0 then ⟨⟨1, 2, 3⟩, quatId, ⟨1, 1, 1⟩⟩
          else ⟨⟨4, 5, 6⟩, quatId, ⟨2, 2, 2⟩⟩)) := by
  have hchain : AncChain (fun e => if e = 1 then some 0 else none) 1 [1, 0] :=
    AncChain.step 1 0 [0] rfl (AncChain.root 0 rfl)
  exact ⟨hchain,
    (c8_world_transform (fun e => if e = 1 then some 0 else none)
      (fun e => if e = 0 then ⟨⟨1, 2, 3⟩, quatId, ⟨1, 1, 1⟩⟩
        else ⟨⟨4, 5, 6⟩, quatId, ⟨2, 2, 2⟩⟩) 1 [1, 0] 2 [] []
      hchain (by simp)).1⟩

/-- Claim C3: for a mesh consisting of a single triangle, with arbitrary (in
particular any non-degenerate) planar coordinates, every vertex's resolved
polygon-reference list consists of the single real polygon 0 plus exactly one
obstacle sentinel; the concrete form produced is `[-1, 0]`. -/
theorem c3_single_triangle (c0 c1 c2 : Coord) :
    navPolyLists [c0, c1, c2] [0, 1, 2] = some [[-1, 0], [-1, 0], [-1, 0]] := by
  rw [navPolyLists, buildNavmesh_eq_simple]
  rfl

/-- Counterexample to claim C2: in the 2-by-1 quad split into the two
counterclockwise triangles [0,1,2] and [0,2,3] along the diagonal between
vertices 0 and 2, the diagonal vertices 0 and 2 resolve to `[1, -1, 0]` and
`[-1, 1, 0]` respectively, each of which contains the obstacle sentinel `-1`,
contradicting the claimed sentinel-free `[poly0, poly1]`. -/
theorem c2_quad_counterexample :
    navPolyLists [(0, 0), (2, 0), (2, 1), (0, 1)] [0, 1, 2, 0, 2, 3] =
      some [[1, -1, 0], [-1, 0], [-1, 1, 0], [-1, 1]] ∧
    (-1 : Int) ∈ ([1, -1, 0] : List Int) ∧ (-1 : Int) ∈ ([-1, 1, 0] : List Int) := by
  refine ⟨?_, by decide, by decide⟩
  rw [navPolyLists, buildNavmesh_eq_simple]
  rfl

/-- Claim C2 as amended: for the quad split into the two triangles [0,1,2] and
[0,2,3] sharing the diagonal between vertices 0 and 2 (any planar coordinates,
in particular the 2-by-1 quad), the two vertices not on the diagonal resolve to
one real polygon plus one sentinel (`[-1, 0]` and `[-1, 1]`), and the two
diagonal vertices resolve to both polygons plus exactly one sentinel for the
outer-boundary gap (`[1, -1, 0]` and `[-1, 1, 0]`). -/
theorem c2_quad_amended (c0 c1 c2 c3 : Coord) :
    navPolyLists [c0, c1, c2, c3] [0, 1, 2, 0, 2, 3] =
      some [[1, -1, 0], [-1, 0], [-1, 1, 0], [-1, 1]] := by
  rw [navPolyLists, buildNavmesh_eq_simple]
  rfl

/-- Counterexample to claim C7: the tetrahedron with triangles [0,1,2], [0,3,1],
[1,3,2], [0,2,3] is a closed mesh (every directed edge and its reversal occur
exactly once), yet after adjacency resolution vertex 0's polygon-reference list
contains obstacle sentinels: the resolver visits polygons in polygon-index
order (the sort key being the constant atan2 of the zero vector), and index
order need not be edge-aligned around a vertex. -/
theorem c7_closed_mesh_counterexample :
    IsClosedMesh (toTriangles [0, 1, 2, 0, 3, 1, 1, 3, 2, 0, 2, 3]) ∧
    navPolyLists [(0, 0), (1, 0), (0, 1), (1, 1)] [0, 1, 2, 0, 3, 1, 1, 3, 2, 0, 2, 3] =
      some [[-1, 1, -1, 3, -1, 0], [1, 2, 0], [2, 3, 0], [-1, 2, -1, 3, -1, 1]] ∧
    (-1 : Int) ∈ ([-1, 1, -1, 3, -1, 0] : List Int) := by
  refine ⟨by unfold IsClosedMesh; decide, ?_, by decide⟩
  rw [navPolyLists, buildNavmesh_eq_simple]
  rfl

/-- Claim C7 as amended: closedness alone does not force sentinel-free output
(the tetrahedron above is a counterexample); for a closed mesh whose per-vertex
polygon lists happen to be edge-aligned in index order — such as the
two-triangle closed mesh [0,1,2], [0,2,1], for arbitrary coordinates — every
vertex's resolved polygon-reference list contains zero sentinel entries. -/
theorem c7_closed_mesh_amended (c0 c1 c2 : Coord) :
    IsClosedMesh (toTriangles [0, 1, 2, 0, 2, 1]) ∧
    navPolyLists [c0, c1, c2] [0, 1, 2, 0, 2, 1] = some [[1, 0], [1, 0], [1, 0]] := by
  refine ⟨by unfold IsClosedMesh; decide, ?_⟩
  rw [navPolyLists, buildNavmesh_eq_simple]
  rfl

/-- Claim C5: a polygon's one-way flag is true exactly when the union of the
polygon memberships of its vertices, taken before ordering and obstacle
insertion, contains fewer than 3 distinct polygon indices; and in particular
both triangles of the 2-by-1 quad are marked one-way. -/
theorem c5_one_way_iff :
    (∀ (verts : List Vertex) (t : List Nat) (poly : Polygon) (ls : List (List Int)),
        omapM (fun i => (verts[i]?).map Vertex.polygons) t = some ls →
        mkPolygon verts t = some poly →
        (poly.is_one_way = true ↔ ls.flatten.toFinset.card < 3)) ∧
    navOneWayFlags [(0, 0), (2, 0), (2, 1), (0, 1)] [0, 1, 2, 0, 2, 3] =
      some [true, true] := by
  constructor
  · intro verts t poly ls hls hpoly
    rw [mkPolygon, hls] at hpoly
    simp only [Option.bind_eq_bind, Option.some_bind] at hpoly
    cases hpoly
    show decide ((ls.flatten.dedup.take 3).length < 3) = true ↔ ls.flatten.toFinset.card < 3
    rw [decide_eq_true_iff, List.card_toFinset, List.length_take, min_lt_iff]
    constructor
    · rintro (h | h)
      · omega
      · exact h
    · exact fun h => Or.inr h
  · rw [navOneWayFlags, buildNavmesh_eq_simple]
    rfl

/-- Witness for claim C5 at the single triangle: its polygon is built with
vertex membership lists [[0], [0], [0]], whose union has one distinct element,
and the one-way flag is true accordingly. -/
theorem c5_one_way_iff_witness :
    omapM (fun i => ((([⟨(0, 0), [0]⟩, ⟨(0, 0), [0]⟩, ⟨(0, 0), [0]⟩] : List Vertex))[i]?).map
        Vertex.polygons) [0, 1, 2] = some [[0], [0], [0]] ∧
    mkPolygon [⟨(0, 0), [0]⟩, ⟨(0, 0), [0]⟩, ⟨(0, 0), [0]⟩] [0, 1, 2] =
      some ⟨[0, 1, 2], true⟩ ∧
    ((Polygon.mk [0, 1, 2] true).is_one_way = true ↔
      ([[0], [0], [0]] : List (List Int)).flatten.toFinset.card < 3) :=
  ⟨rfl, rfl,
    c5_one_way_iff.1 [⟨(0, 0), [0]⟩, ⟨(0, 0), [0]⟩, ⟨(0, 0), [0]⟩] [0, 1, 2]
      ⟨[0, 1, 2], true⟩ [[0], [0], [0]] rfl rfl⟩

/-- Claim C9: the bake is deterministic and idempotent: the vertex/polygon
construction and adjacency resolution is a pure function of the extracted mesh,
so two runs on the same input produce structurally identical results, in
particular identical per-vertex polygon-reference lists under order-sensitive
equality. -/
theorem c9_deterministic (coords : List Coord) (indices : List Nat)
    (out1 out2 : Option (List Vertex × List Polygon))
    (h1 : buildNavmesh coords indices = out1) (h2 : buildNavmesh coords indices = out2) :
    out1 = out2 ∧
    (out1.map (fun out => out.1.map Vertex.polygons)) =
      (out2.map (fun out => out.1.map Vertex.polygons)) := by
  rw [← h1, ← h2]
  exact ⟨rfl, rfl⟩

/-- Witness for claim C9 at the 2-by-1 quad. -/
theorem c9_deterministic_witness :
    buildNavmesh [(0, 0), (2, 0), (2, 1), (0, 1)] [0, 1, 2, 0, 2, 3] =
      buildNavmesh [(0, 0), (2, 0), (2, 1), (0, 1)] [0, 1, 2, 0, 2, 3] :=
  (c9_deterministic [(0, 0), (2, 0), (2, 1), (0, 1)] [0, 1, 2, 0, 2, 3]
    (buildNavmesh [(0, 0), (2, 0), (2, 1), (0, 1)] [0, 1, 2, 0, 2, 3])
    (buildNavmesh [(0, 0), (2, 0), (2, 1), (0, 1)] [0, 1, 2, 0, 2, 3]) rfl rfl).1

/-! Evaluation of the spec's angular sort key on the fan fixture (claim C1). -/

lemma atan2Le_eval1 : atan2Le ((1 : ℚ), (0 : ℚ)) ((-1 : ℚ), (0 : ℚ)) = true := by
  norm_num [atan2Le, atan2Class, cross2]

lemma atan2Le_eval2 : atan2Le ((0 : ℚ), (1 : ℚ)) ((1 : ℚ), (0 : ℚ)) = false := by
  norm_num [atan2Le, atan2Class, cross2]

lemma atan2Le_eval3 : atan2Le ((0 : ℚ), (1 : ℚ)) ((-1 : ℚ), (0 : ℚ)) = true := by
  norm_num [atan2Le, atan2Class, cross2]

lemma specAngularSorted_fan :
    specAngularSorted fanVerts fanPolys 0 ⟨(0, 0), [0, 1, 2]⟩ = some [1, 0, 2] := by
  have hk0 : specSortKey fanVerts fanPolys 0 ⟨(0, 0), [0, 1, 2]⟩ 0 =
      some (0, ((0 : ℚ), (1 : ℚ))) := by
    rw [show specSortKey fanVerts fanPolys 0 ⟨(0, 0), [0, 1, 2]⟩ 0 =
        some (0, vsub ((0 : ℚ), (1 : ℚ)) ((0 : ℚ), (0 : ℚ))) from rfl]
    norm_num [vsub]
  have hk1 : specSortKey fanVerts fanPolys 0 ⟨(0, 0), [0, 1, 2]⟩ 1 =
      some (1, ((1 : ℚ), (0 : ℚ))) := by
    rw [show specSortKey fanVerts fanPolys 0 ⟨(0, 0), [0, 1, 2]⟩ 1 =
        some (1, vsub ((1 : ℚ), (0 : ℚ)) ((0 : ℚ), (0 : ℚ))) from rfl]
    norm_num [vsub]
  have hk2 : specSortKey fanVerts fanPolys 0 ⟨(0, 0), [0, 1, 2]⟩ 2 =
      some (2, ((-1 : ℚ), (0 : ℚ))) := by
    rw [show specSortKey fanVerts fanPolys 0 ⟨(0, 0), [0, 1, 2]⟩ 2 =
        some (2, vsub ((-1 : ℚ), (0 : ℚ)) ((0 : ℚ), (0 : ℚ))) from rfl]
    norm_num [vsub]
  have homap : omapM (specSortKey fanVerts fanPolys 0 ⟨(0, 0), [0, 1, 2]⟩)
      ([0, 1, 2] : List Int) =
      some [(0, ((0 : ℚ), (1 : ℚ))), (1, ((1 : ℚ), (0 : ℚ))), (2, ((-1 : ℚ), (0 : ℚ)))] := by
    simp only [omapM, hk0, hk1, hk2, Option.bind_eq_bind, Option.some_bind, Option.pure_def]
  have hsort : stableSortLe (fun a b : Int × Coord => atan2Le a.2 b.2)
      [(0, ((0 : ℚ), (1 : ℚ))), (1, ((1 : ℚ), (0 : ℚ))), (2, ((-1 : ℚ), (0 : ℚ)))] =
      [(1, ((1 : ℚ), (0 : ℚ))), (0, ((0 : ℚ), (1 : ℚ))), (2, ((-1 : ℚ), (0 : ℚ)))] := by
    simp [stableSortLe, insertLe, atan2Le_eval1, atan2Le_eval2, atan2Le_eval3]
  rw [specAngularSorted]
  rw [show (⟨(0, 0), [0, 1, 2]⟩ : Vertex).polygons = ([0, 1, 2] : List Int) from rfl]
  rw [homap]
  simp only [Option.bind_eq_bind, Option.some_bind, hsort]
  rfl

/-- Code-level falsification of claim C1, evaluated on the fan fixture (three
counterclockwise triangles around vertex 0). The source's sort key reads
`unordered_vertices[counterclockwise_edge.1]`, which is the vertex itself, so
the key is the atan2 of the zero vector — a constant — and the stable sort
leaves the incident polygons in index order. The resolved real entries of
vertex 0 are therefore [1, 2, 0], a rotation of index order [0, 1, 2], whereas
the angular order by the claim's sort key (the vector to the other endpoint of
the counterclockwise edge) is [1, 0, 2]; no cyclic rotation reconciles the two.
The walk consequently also inserts three spurious sentinels around vertex 0. -/
theorem c1_angular_order_violated :
    navPolyLists fanCoords fanIndices =
      some [[-1, 1, -1, 2, -1, 0], [1, -1, 0], [-1, 2, 0], [-1, 2], [-1, 1]] ∧
    ([-1, 1, -1, 2, -1, 0] : List Int).filter (fun p => p ≠ -1) = [1, 2, 0] ∧
    initialVertices fanCoords (toTriangles fanIndices) = fanVerts ∧
    (buildNavmesh fanCoords fanIndices).map Prod.snd = some fanPolys ∧
    fanVerts[0]? = some ⟨(0, 0), [0, 1, 2]⟩ ∧
    specAngularSorted fanVerts fanPolys 0 ⟨(0, 0), [0, 1, 2]⟩ = some [1, 0, 2] ∧
    ∀ r : Nat, ([1, 0, 2] : List Int).rotate r ≠ [1, 2, 0] := by
  refine ⟨?_, by decide, rfl, ?_, rfl, specAngularSorted_fan, ?_⟩
  · rw [navPolyLists, buildNavmesh_eq_simple]
    rfl
  · rw [buildNavmesh_eq_simple]
    rfl
  · intro r
    have h3 : ∀ s, s < 3 → ([1, 0, 2] : List Int).rotate s ≠ [1, 2, 0] := by decide
    have hmod : ([1, 0, 2] : List Int).rotate r = ([1, 0, 2] : List Int).rotate (r % 3) :=
      (List.rotate_mod ([1, 0, 2] : List Int) r).symm
    rw [hmod]
    exact h3 _ (Nat.mod_lt _ (by norm_num))

/-- Witness for claim C4 at vertex 0 of the 2-by-1 quad. -/
theorem c4_no_adjacent_sentinels_witness :
    List.Chain' NotBothSentinel ([1, -1, 0] : List Int) ∧
    ([1, -1, 0] : List Int).getLast? ≠ some (-1) ∧
    ¬(([1, -1, 0] : List Int).getLast? = some (-1) ∧
      ([1, -1, 0] : List Int).head? = some (-1)) ∧
    ∃ ov, (initialVertices [(0, 0), (2, 0), (2, 1), (0, 1)]
        (toTriangles [0, 1, 2, 0, 2, 3]))[0]? = some ov ∧
      (([1, -1, 0] : List Int).filter (fun p => p ≠ -1)).length = ov.polygons.length ∧
      ([1, -1, 0] : List Int).length =
        (([1, -1, 0] : List Int).filter (fun p => p ≠ -1)).length +
          ([1, -1, 0] : List Int).count (-1) :=
  c4_no_adjacent_sentinels [(0, 0), (2, 0), (2, 1), (0, 1)] [0, 1, 2, 0, 2, 3]
    ([⟨(0, 0), [1, -1, 0]⟩, ⟨(2, 0), [-1, 0]⟩, ⟨(2, 1), [-1, 1, 0]⟩, ⟨(0, 1), [-1, 1]⟩],
      [⟨[0, 1, 2], true⟩, ⟨[0, 2, 3], true⟩]) 0 ⟨(0, 0), [1, -1, 0]⟩
    ((buildNavmesh_eq_simple [(0, 0), (2, 0), (2, 1), (0, 1)] [0, 1, 2, 0, 2, 3]).trans rfl)
    rfl

/-- Witness for claim C10 at vertex 0 of the 2-by-1 quad. -/
theorem c10_fan_preserved_witness :
    ∃ ov, (initialVertices [(0, 0), (2, 0), (2, 1), (0, 1)]
        (toTriangles [0, 1, 2, 0, 2, 3]))[0]? = some ov ∧
      (([1, -1, 0] : List Int).filter (fun p => p ≠ -1)).Perm ov.polygons ∧
      ov.polygons.Nodup :=
  c10_fan_preserved [(0, 0), (2, 0), (2, 1), (0, 1)] [0, 1, 2, 0, 2, 3]
    ([⟨(0, 0), [1, -1, 0]⟩, ⟨(2, 0), [-1, 0]⟩, ⟨(2, 1), [-1, 1, 0]⟩, ⟨(0, 1), [-1, 1]⟩],
      [⟨[0, 1, 2], true⟩, ⟨[0, 2, 3], true⟩]) 0 ⟨(0, 0), [1, -1, 0]⟩
    ((buildNavmesh_eq_simple [(0, 0), (2, 0), (2, 1), (0, 1)] [0, 1, 2, 0, 2, 3]).trans rfl)
    rfl

/-- Witness for claim C6: a vertex listing a polygon that does not contain it
makes the resolver return `none`; a well-formed single-triangle vertex set
resolves successfully. -/
theorem c6_fail_fast_witness :
    resolveVertices [⟨(0, 0), [0]⟩] [⟨[1, 2, 3], true⟩] = none ∧
    (resolveVertices [⟨(0, 0), [0]⟩, ⟨(0, 0), [0]⟩, ⟨(0, 0), [0]⟩]
      [⟨[0, 1, 2], true⟩]).isSome = true := by
  constructor
  · exact c6_fail_fast.1 [⟨(0, 0), [0]⟩] [⟨[1, 2, 3], true⟩] 0 ⟨(0, 0), [0]⟩ 0 0
      ⟨[1, 2, 3], true⟩ rfl (by decide) rfl rfl (by decide)
  · have hgood : ∀ (i : Nat)
        (hi : i < ([⟨(0, 0), [0]⟩, ⟨(0, 0), [0]⟩, ⟨(0, 0), [0]⟩] : List Vertex).length),
        (([⟨(0, 0), [0]⟩, ⟨(0, 0), [0]⟩, ⟨(0, 0), [0]⟩] : List Vertex).get ⟨i, hi⟩).polygons ≠
            [] ∧
          ∀ p ∈ (([⟨(0, 0), [0]⟩, ⟨(0, 0), [0]⟩, ⟨(0, 0), [0]⟩] : List Vertex).get
              ⟨i, hi⟩).polygons,
            ValidEntry [⟨[0, 1, 2], true⟩] i p := by
      intro i hi
      have hi3 : i < 3 := by simpa using hi
      interval_cases i <;>
        exact ⟨by simp, by
          intro p hp
          simp at hp
          subst hp
          exact ⟨0, ⟨[0, 1, 2], true⟩, rfl, rfl, by decide⟩⟩
    exact (c6_fail_fast.2 [⟨(0, 0), [0]⟩, ⟨(0, 0), [0]⟩, ⟨(0, 0), [0]⟩]
      [⟨[0, 1, 2], true⟩] hgood).2

/-- Witness for claim C3 at a concrete right triangle. -/
theorem c3_single_triangle_witness :
    navPolyLists [(0, 0), (1, 0), (0, 1)] [0, 1, 2] = some [[-1, 0], [-1, 0], [-1, 0]] :=
  c3_single_triangle (0, 0) (1, 0) (0, 1)

/-- Witness for the amended claim C2 at the concrete 2-by-1 quad. -/
theorem c2_quad_amended_witness :
    navPolyLists [(0, 0), (2, 0), (2, 1), (0, 1)] [0, 1, 2, 0, 2, 3] =
      some [[1, -1, 0], [-1, 0], [-1, 1, 0], [-1, 1]] :=
  c2_quad_amended (0, 0) (2, 0) (2, 1) (0, 1)

/-- Witness for the amended claim C7 at concrete coordinates. -/
theorem c7_closed_mesh_amended_witness :
    IsClosedMesh (toTriangles [0, 1, 2, 0, 2, 1]) ∧
    navPolyLists [(0, 0), (1, 0), (0, 1)] [0, 1, 2, 0, 2, 1] =
      some [[1, 0], [1, 0], [1, 0]] :=
  c7_closed_mesh_amended (0, 0) (1, 0) (0, 1)
